import Mathlib

/-!
Shallow embedding of `pkg/moq/moq.go` (repository mkfsn/moq).

The Go file implements a mock generator: `New` parses a source directory and
picks a target package name; `Mocker.Mock` type-checks each parsed package,
looks up the requested interface names, extracts method signatures into a
render document (`doc`/`obj`/`method`/`param`), and executes the
`moqTemplate` text template into the supplied writer.

Modelling conventions:
* Go maps (`m.pkgs`, `m.imports`) have no iteration order.  The set
  `m.imports` is represented canonically as a duplicate-free list in
  insertion order; every place the Go code *ranges* over the map takes an
  explicit enumeration function (`iter`) that may permute the list, so a
  "run" of the program fixes one enumeration.  `m.pkgs` is likewise taken as
  a list in the order one run happens to enumerate it.
* The Go type checker (`go/types`) is an external collaborator: a parsed
  package carries its pre-computed check result (`GoPkg.check`) and an
  interface symbol carries its flattened method set (`Sym.iface`), exactly
  the data `Mock` reads from `go/types`.
* `types.TypeString` is modelled on a small structured type syntax `Ty`
  (basic, package-level named, slice, pointer) — the cases the generator
  distinguishes; qualification and the import side effect follow
  `Mocker.packageQualifier` verbatim.
* Run-time panics (Go slice-bounds errors such as `typename[0:2]`) are
  modelled with `Option`/`GoResult.panicked`.
* Strings are treated as their character lists; all source text involved is
  ASCII, so Go byte indexing and Lean character indexing agree.
-/

namespace Moq

/-- Go `s.take`-style substring `s[0:n]` contents (characters; ASCII ⇒ bytes). -/
def strTake (s : String) (n : Nat) : String :=
  String.mk (s.data.take n)

/-- Go `s[n:]` contents for ASCII strings. -/
def strDrop (s : String) (n : Nat) : String :=
  String.mk (s.data.drop n)

/-- Go string slicing `s[0:2]`: panics (`none`) when `len s < 2`. -/
def goSlice2 (s : String) : Option String :=
  if 2 ≤ s.data.length then some (strTake s 2) else none

/-- `l2` starts with `l1`. -/
def listStartsWith : List Char → List Char → Bool
  | [], _ => true
  | _ :: _, [] => false
  | a :: as, b :: bs => a == b && listStartsWith as bs

/-- Helper for `goContains`: does `needle` occur in the haystack list. -/
def containsAux (needle : List Char) : List Char → Bool
  | [] => needle.isEmpty
  | c :: rest => listStartsWith needle (c :: rest) || containsAux needle rest

/-- Go `strings.Contains s sub`. -/
def goContains (s sub : String) : Bool :=
  containsAux sub.data s.data

/-- Substitute the first `%d` in a format string by the decimal of `n`.
Models `fmt.Sprintf` for the two format strings the generator uses
(`"in%d"`, `"out%d"`). -/
def substD (n : Nat) : List Char → List Char
  | [] => []
  | [c] => [c]
  | c1 :: c2 :: rest =>
    if c1 = '%' ∧ c2 = 'd' then (toString n).data ++ rest
    else c1 :: substD n (c2 :: rest)

/-- Go `fmt.Sprintf nameFormat n` for the `%d` formats used here. -/
def sprintfD (format : String) (n : Nat) : String :=
  String.mk (substD n format.data)

/-- The structured form of a Go type as far as the generator distinguishes
types: basic types, package-level named types (with home package name
and import path), slices and pointers. -/
inductive Ty where
  | basic (name : String)
  | named (pkgName pkgPath tyName : String)
  | slice (elem : Ty)
  | ptr (elem : Ty)
deriving Repr, DecidableEq

/-- Go `map[string]bool` set insertion (`m.imports[path] = true`): the set is
kept as a duplicate-free list in insertion order. -/
def insertImport (imports : List String) (path : String) : List String :=
  if path ∈ imports then imports else imports ++ [path]

/-- `Mocker.packageQualifier`: empty qualifier for the target package,
otherwise the foreign package short name, recording the import path. -/
def packageQualifier (target : String) (pkgName pkgPath : String)
    (imports : List String) : String × List String :=
  if target = pkgName then ("", imports)
  else (pkgName, insertImport imports pkgPath)

/-- `types.TypeString p.Type m.packageQualifier`: renders a type, threading
the import-set side effect of the qualifier. -/
def typesTypeString (target : String) : Ty → List String → String × List String
  | .basic n, imports => (n, imports)
  | .named pn pp tn, imports =>
    let q := packageQualifier target pn pp imports
    (if q.1 = "" then tn else q.1 ++ "." ++ tn, q.2)
  | .slice e, imports =>
    let r := typesTypeString target e imports
    ("[]" ++ r.1, r.2)
  | .ptr e, imports =>
    let r := typesTypeString target e imports
    ("*" ++ r.1, r.2)

/-- One variable of a `types.Tuple`: declared name (possibly empty) and type. -/
structure Var where
  name : String
  ty : Ty
deriving Repr, DecidableEq

/-- Go struct `param` (the Go field `Type` is a Lean keyword, hence the
guillemets). -/
structure Param where
  Name : String
  «Type» : String
  Variadic : Bool
deriving Repr, DecidableEq

/-- Loop body of `Mocker.extractArgs`: `ii` is the loop index, `listLen` the
length of the whole tuple.  `none` models the Go run-time panic of
`typename[0:2]` when the rendered type has fewer than two characters. -/
def extractArgsAux (target : String) (sigVariadic : Bool) (nameFormat : String)
    (listLen : Nat) : Nat → List Var → List String → Option (List Param × List String)
  | _, [], imports => some ([], imports)
  | ii, v :: rest, imports =>
    let name := if v.name = "" then sprintfD nameFormat (ii + 1) else v.name
    let tr := typesTypeString target v.ty imports
    if sigVariadic = true ∧ ii = listLen - 1 then
      match goSlice2 tr.1 with
      | none => none
      | some pre =>
        match extractArgsAux target sigVariadic nameFormat listLen (ii + 1) rest tr.2 with
        | none => none
        | some (ps, imports2) =>
          some ({ Name := name, «Type» := tr.1, Variadic := pre = "[]" } :: ps, imports2)
    else
      match extractArgsAux target sigVariadic nameFormat listLen (ii + 1) rest tr.2 with
      | none => none
      | some (ps, imports2) =>
        some ({ Name := name, «Type» := tr.1, Variadic := false } :: ps, imports2)

/-- `Mocker.extractArgs sig list nameFormat`. -/
def extractArgs (target : String) (sigVariadic : Bool) (list : List Var)
    (nameFormat : String) (imports : List String) : Option (List Param × List String) :=
  extractArgsAux target sigVariadic nameFormat list.length 0 list imports

/-- A resolved method signature as supplied by `go/types`
(`meth.Name()`, `sig.Params()`, `sig.Results()`, `sig.Variadic()`). -/
structure MethodSig where
  name : String
  params : List Var
  results : List Var
  variadic : Bool
deriving Repr, DecidableEq

/-- Go struct `method`. -/
structure Method where
  Name : String
  Params : List Param
  Returns : List Param
deriving Repr, DecidableEq

/-- `param.TypeString`; `Variadic` params were stored with a `"[]"` prefix by
`extractArgs`, which keeps Go `p.Type[2:]` in range. -/
def Param.TypeString (p : Param) : String :=
  if p.Variadic then ("...") ++ strDrop p.«Type» 2 else p.«Type»

/-- `param.String`. -/
def Param.string (p : Param) : String :=
  p.Name ++ " " ++ p.TypeString

/-- `param.CallName`. -/
def Param.CallName (p : Param) : String :=
  if p.Variadic then p.Name ++ "..." else p.Name

/-- `method.Arglist`. -/
def Method.Arglist (m : Method) : String :=
  String.intercalate (", ") (m.Params.map Param.string)

/-- `method.ArgCallList`. -/
def Method.ArgCallList (m : Method) : String :=
  String.intercalate (", ") (m.Params.map Param.CallName)

/-- `method.ReturnArglist`. -/
def Method.ReturnArglist (m : Method) : String :=
  let params := m.Returns.map Param.TypeString
  if 1 < m.Returns.length then ("(") ++ String.intercalate (", ") params ++ ")"
  else String.intercalate (", ") params

/-- Template function `Exported`: first character upper-cased (ASCII). -/
def Exported (s : String) : String :=
  if s = "" then ("") else (strTake s 1).toUpper ++ strDrop s 1

/-- Go struct `obj`. -/
structure Obj where
  InterfaceName : String
  Methods : List Method
deriving Repr, DecidableEq

/-- Go struct `doc`. -/
structure Doc where
  PackageName : String
  Objects : List Obj
  Imports : List String
deriving Repr, DecidableEq

/-- `moqImports`: the imports all moq files get. -/
def moqImports : List String := ["sync"]

/-- A symbol found in the checked package scope: an interface with its
complete (embedding-flattened) method set, or some other type (rendered
type string kept for the error message). -/
inductive Sym where
  | iface (methods : List MethodSig)
  | nonIface (typeRepr : String)
deriving Repr

/-- A parsed package as `Mock` consumes it: the outcome of `conf.Check`
(the type checker is an external collaborator), on success the package
scope as name/symbol pairs. -/
structure GoPkg where
  check : Except String (List (String × Sym))

/-- Outcome of a Go computation that can return an error or panic. -/
inductive GoResult (α : Type) where
  | panicked
  | failed (msg : String)
  | ok (val : α)
deriving Repr, DecidableEq

/-- The per-method body of the extraction loop in `Mock`: params with format
`"in%d"`, results with `"out%d"`, both against the same signature. -/
def extractMethodDescr (target : String) (sig : MethodSig)
    (imports : List String) : Option (Method × List String) :=
  match extractArgs target sig.variadic sig.params ("in%d") imports with
  | none => none
  | some (ps, imports1) =>
    match extractArgs target sig.variadic sig.results ("out%d") imports1 with
    | none => none
    | some (rs, imports2) =>
      some ({ Name := sig.name, Params := ps, Returns := rs }, imports2)

/-- The inner method loop of `Mock` over `iiface.NumMethods()`. -/
def extractMethods (target : String) : List MethodSig → List String → Option (List Method × List String)
  | [], imports => some ([], imports)
  | sig :: rest, imports =>
    match extractMethodDescr target sig imports with
    | none => none
    | some (m, imports1) =>
      match extractMethods target rest imports1 with
      | none => none
      | some (ms, imports2) => some (m :: ms, imports2)

/-- The loop `for _, n := range name` of `Mock` within one checked package. -/
def processNames (target : String) (scope : List (String × Sym)) :
    List String → List String → GoResult (List Obj × List String)
  | [], imports => .ok ([], imports)
  | n :: rest, imports =>
    match scope.lookup n with
    | none => .failed ("cannot find interface " ++ n)
    | some (.nonIface t) => .failed (n ++ " (" ++ t ++ ") not an interface")
    | some (.iface sigs) =>
      match extractMethods target sigs imports with
      | none => .panicked
      | some (ms, imports1) =>
        match processNames target scope rest imports1 with
        | .panicked => .panicked
        | .failed e => .failed e
        | .ok (objs, imports2) =>
          .ok ({ InterfaceName := n, Methods := ms } :: objs, imports2)

/-- The outer loop `for _, pkg := range m.pkgs` of `Mock`: each package is
checked and then every requested name is processed (and appended to
`doc.Objects`) for that package. -/
def processPkgs (target : String) (names : List String) :
    List GoPkg → List String → GoResult (List Obj × List String)
  | [], imports => .ok ([], imports)
  | pkg :: rest, imports =>
    match pkg.check with
    | .error e => .failed e
    | .ok scope =>
      match processNames target scope names imports with
      | .panicked => .panicked
      | .failed e => .failed e
      | .ok (objs1, imports1) =>
        match processPkgs target names rest imports1 with
        | .panicked => .panicked
        | .failed e => .failed e
        | .ok (objs2, imports2) => .ok (objs1 ++ objs2, imports2)

/-- `Mocker.Mock` up to (but not including) template execution: the
empty-name-list check and the object/import accumulation.  The
returned import list is the `m.imports` field of the Mocker after the call. -/
def mockBuild (target : String) (pkgs : List GoPkg) (imports0 : List String)
    (names : List String) : GoResult (List Obj × List String) :=
  if names = [] then .failed ("must specify one interface")
  else processPkgs target names pkgs imports0

/-- `Mocker.Mock` up to template execution, including assembly of the render
document: `doc.Imports` is `moqImports` followed by the entries of
`m.imports` in the order `iter` enumerates the map this run. -/
def mockDoc (target : String) (pkgs : List GoPkg) (imports0 : List String)
    (names : List String) (iter : List String → List String) :
    GoResult (Doc × List String) :=
  match mockBuild target pkgs imports0 names with
  | .panicked => .panicked
  | .failed e => .failed e
  | .ok (objs, imports1) =>
    .ok ({ PackageName := target, Objects := objs,
           Imports := moqImports ++ iter imports1 }, imports1)

/-!
The renderer: `moqTemplate` expanded by `text/template`.  The definitions
below follow the template text node-for-node after applying the whitespace
trim markers of the template (`{{-`/`-}}`); literal braces are written `\x7b` and
`\x7d`, double quotes `\x22`.
-/

/-- Body of the doc-comment stub range `{{ range .Methods }}…{{- end }}`. -/
def renderStub (m : Method) : String :=
  "\n//             " ++ m.Name ++ "Func: func(" ++ m.Arglist ++ ") " ++
  m.ReturnArglist ++
  " \x7b\n// \t               panic(\x22TODO: mock out the " ++ m.Name ++
  " method\x22)\n//             \x7d,"

/-- Body of the struct-field range: one `<Name>Func` field per method. -/
def renderField (m : Method) : String :=
  "\n\t// " ++ m.Name ++ "Func mocks the " ++ m.Name ++ " method.\n\t" ++
  m.Name ++ "Func func(" ++ m.Arglist ++ ") " ++ m.ReturnArglist ++ "\n"

/-- Body of the `CallsTo` per-parameter range. -/
def renderParamDoc (p : Param) : String :=
  "\n\t\t\t// " ++ Exported p.Name ++ " is the " ++ p.Name ++
  " argument value.\n\t\t\t" ++ Exported p.Name ++ " " ++ p.«Type»

/-- Body of the `CallsTo` per-method range: lock, log comment, log slice. -/
def renderCallsTo (m : Method) : String :=
  "\n\t\tlock" ++ m.Name ++ " sync.Mutex // protects " ++ m.Name ++
  "\n\t\t// " ++ m.Name ++ " holds details about calls to the " ++ m.Name ++
  " method.\n\t\t" ++ m.Name ++ " []struct \x7b" ++
  String.join (m.Params.map renderParamDoc) ++ "\n\t\t\x7d"

/-- Snapshot struct field line inside the generated method body. -/
def renderSnapField (p : Param) : String :=
  "\n\t\t" ++ Exported p.Name ++ " " ++ p.«Type»

/-- Snapshot struct initialiser line inside the generated method body. -/
def renderSnapInit (p : Param) : String :=
  "\n\t\t" ++ Exported p.Name ++ ": " ++ p.Name ++ ","

/-- One generated method implementation (the `{{ range .Methods }}` block at
the bottom of the template, `$obj.InterfaceName` passed as `iface`). -/
def renderMethodImpl (iface : String) (m : Method) : String :=
  "\n// " ++ m.Name ++ " calls " ++ m.Name ++ "Func.\nfunc (mock *" ++
  iface ++ "Mock) " ++ m.Name ++ "(" ++ m.Arglist ++ ") " ++
  m.ReturnArglist ++ " \x7b\n\tif mock." ++ m.Name ++
  "Func == nil \x7b\n\t\tpanic(\x22moq: " ++ iface ++ "Mock." ++ m.Name ++
  "Func is nil but was just called\x22)\n\t\x7d\n\tmock.CallsTo.lock" ++
  m.Name ++ ".Lock()\n\tmock.CallsTo." ++ m.Name ++
  " = append(mock.CallsTo." ++ m.Name ++ ", struct\x7b" ++
  String.join (m.Params.map renderSnapField) ++ "\n\t\x7d\x7b" ++
  String.join (m.Params.map renderSnapInit) ++
  "\n\t\x7d)\n\tmock.CallsTo.lock" ++ m.Name ++ ".Unlock()" ++
  (if m.ReturnArglist = "" then
    "\n\tmock." ++ m.Name ++ "Func(" ++ m.ArgCallList ++ ")"
   else
    "\n\treturn mock." ++ m.Name ++ "Func(" ++ m.ArgCallList ++ ")") ++
  "\n\x7d\n"

/-- One iteration of `{{ range $i, $obj := .Objects }}`: usage doc comment,
mock struct with `CallsTo`, then the method implementations. -/
def renderObj (o : Obj) : String :=
  "\n// " ++ o.InterfaceName ++ "Mock is a mock implementation of " ++
  o.InterfaceName ++ ".\n//\n//     func TestSomethingThatUses" ++
  o.InterfaceName ++
  "(t *testing.T) \x7b\n//\n//         // make and configure a mocked " ++
  o.InterfaceName ++ "\n//         mocked" ++ o.InterfaceName ++ " := &" ++
  o.InterfaceName ++ "Mock\x7b " ++
  String.join (o.Methods.map renderStub) ++
  "\n//         \x7d\n//\n//         // TODO: use mocked" ++
  o.InterfaceName ++ " in code that requires " ++ o.InterfaceName ++
  "\n//         //       and then make assertions.\n//         //\n//         // Use the CallsTo structure to access details about what calls were made:\n//         // \n//         //     if len(mocked" ++
  o.InterfaceName ++
  ".CallsTo.MethodFunc) != 1 \x7b\n//\t       //     \tt.Errorf(\x22expected 1 call there were %d\x22, len(mocked" ++
  o.InterfaceName ++
  ".CallsTo.MethodFunc))\n//         //     \x7d\n//         \n//     \x7d\ntype " ++
  o.InterfaceName ++ "Mock struct \x7b" ++
  String.join (o.Methods.map renderField) ++
  "\n\t// CallsTo tracks calls to the methods.\n\tCallsTo struct \x7b" ++
  String.join (o.Methods.map renderCallsTo) ++
  "\n\t\x7d\n\x7d\n" ++
  String.join (o.Methods.map (renderMethodImpl o.InterfaceName))

/-- `tmpl.Execute` writes to the `io.Writer` as it goes; `renderChunks` is
the sequence of writes.  Boundaries are taken at the top-level template
nodes (the document header pieces, one chunk per import line, one chunk per
object body; the real template also flushes smaller pieces inside an object,
which would only add further failure points). -/
def renderChunks (d : Doc) : List String :=
  ["package ", d.PackageName,
   "\n\n// AUTOGENERATED BY MOQ\n// github.com/matryer/moq\n\nimport ("] ++
  (d.Imports.map (fun p => "\n\t\x22" ++ p ++ "\x22")) ++
  ["\n)\n"] ++
  (d.Objects.map renderObj)

/-- The full text `tmpl.Execute` produces for a document. -/
def render (d : Doc) : String :=
  String.join (renderChunks d)

/-- An `io.Writer` that accepts at most `cap` bytes (e.g. a full disk):
feeds chunks in order, returns the bytes accepted and whether all writes
succeeded. -/
def writeSegs (cap : Nat) : List String → String → String × Bool
  | [], acc => (acc, true)
  | s :: rest, acc =>
    if acc.length + s.length ≤ cap then writeSegs cap rest (acc ++ s)
    else (acc, false)

/-- `Mocker.Mock` including template execution against a capacity-limited
writer: returns the outcome of the call and the bytes that reached the writer. -/
def mockWrite (target : String) (pkgs : List GoPkg) (imports0 : List String)
    (names : List String) (iter : List String → List String) (cap : Nat) :
    GoResult Unit × String :=
  match mockDoc target pkgs imports0 names iter with
  | .panicked => (.panicked, "")
  | .failed e => (.failed e, "")
  | .ok (d, _) =>
    let w := writeSegs cap (renderChunks d) ("")
    (if w.2 then .ok () else .failed ("write error"), w.1)

/-!  `New`: package-name selection. -/

/-- The loop `for pkgName := range pkgs` of `New`, over the package names in
the order map iteration produces them in this run: skip names containing
`"_test"`, take the first remaining one (`break`). -/
def choosePkgName : List String → String
  | [] => ""
  | n :: rest => if goContains n ("_test") then choosePkgName rest else n

/-- Package-name determination in `New`: an empty argument is replaced by the
first non-test parsed package name; an error iff the result is still empty. -/
def newPkgName (packageName : String) (pkgNames : List String) : Except String String :=
  let pn := if packageName.length = 0 then choosePkgName pkgNames else packageName
  if pn.length = 0 then .error ("failed to determine package name")
  else .ok pn

/-- One full run of the pipeline, `New` followed by `Mock`: `pkgNames` is
the key set of the parse result in the iteration order of this run, `pkgs`
the packages in the iteration order of this run, `iter` the enumeration of
the import map.  `New` creates the Mocker with an empty import set. -/
def generate (packageName : String) (pkgNames : List String)
    (pkgs : List GoPkg) (names : List String)
    (iter : List String → List String) : GoResult String :=
  match newPkgName packageName pkgNames with
  | .error e => .failed e
  | .ok target =>
    match mockDoc target pkgs [] names iter with
    | .panicked => .panicked
    | .failed e => .failed e
    | .ok (d, _) => .ok (render d)

/-!  Small projections used to state concrete run outcomes. -/

/-- The import list of the render document of a successful `mockDoc` run. -/
def docImports : GoResult (Doc × List String) → List String
  | .ok (d, _) => d.Imports
  | _ => []

/-- The import set of the Mocker after a successful `mockDoc` run. -/
def mockerImports : GoResult (Doc × List String) → List String
  | .ok (_, imps) => imps
  | _ => []

/-- The interface names of the collected descriptors of a `mockBuild` run. -/
def objNames : GoResult (List Obj × List String) → List String
  | .ok (objs, _) => objs.map (fun o => o.InterfaceName)
  | _ => []

/-!  Concrete source trees used to evaluate the pipeline. -/

/-- A package whose single interface mentions two foreign packages. -/
def pkgTwoForeign : GoPkg :=
  ⟨.ok [("I", .iface [⟨"M",
    [⟨"a", .named ("pa") ("example.com/pa") ("T")⟩,
     ⟨"b", .named ("pb") ("example.com/pb") ("U")⟩], [], false⟩])]⟩

/-- A package whose interface returns `*sync.WaitGroup`, i.e. references the
foreign package with import path `"sync"`. -/
def pkgSyncRef : GoPkg :=
  ⟨.ok [("I", .iface [⟨"M", [],
    [⟨"", .ptr (.named ("sync") ("sync") ("WaitGroup"))⟩], false⟩])]⟩

/-- A package declaring the empty interface `I`. -/
def pkgIfaceI : GoPkg := ⟨.ok [("I", .iface [])]⟩

/-- A second package (as from a directory parsed into several packages) that
also declares `I`. -/
def pkgIfaceIJ : GoPkg := ⟨.ok [("I", .iface []), ("J", .iface [])]⟩

/-- A package whose interface `J` references foreign package
`example.com/ext`. -/
def pkgExt : GoPkg :=
  ⟨.ok [("J", .iface [⟨"M",
    [⟨"x", .named ("ext") ("example.com/ext") ("T")⟩], [], false⟩])]⟩

/-- A package whose interface `K` references no foreign package. -/
def pkgPlain : GoPkg :=
  ⟨.ok [("K", .iface [⟨"N", [⟨"s", .basic ("string")⟩], [], false⟩])]⟩

/-- A variadic method whose last result type renders as the one-character
string `"T"` (a named type of the target package):
`interface { M(xs ...int) T }`. -/
def sigVariadicShortResult : MethodSig :=
  ⟨"M", [⟨"xs", .slice (.basic ("int"))⟩],
        [⟨"", .named ("foo") ("example.com/foo") ("T")⟩], true⟩

/-!  Theorems. -/

/-- Claim C1: the claim asserts byte-identical output across runs on a fixed
source tree and name list.  The code ranges over the Go map `m.imports` when
building `doc.Imports`; map iteration order is not fixed across runs, and
both the identity and the reversing enumeration are valid orders of the
same import set (first conjunct), yet they make the pipeline `New` + `Mock` emit
different bytes (second conjunct). -/
theorem generate_output_depends_on_import_enumeration :
    (∀ l : List String, (List.reverse l).Perm l) ∧
    generate ("") ["foo"] [pkgTwoForeign] ["I"] (fun l => l) ≠
      generate ("") ["foo"] [pkgTwoForeign] ["I"] List.reverse := by
  constructor
  · exact fun l => l.reverse_perm
  · decide

/-- Claim C5 counterexample: the foreign package `sync` (path `"sync"`,
referenced via a `*sync.WaitGroup` result) is inserted into the import set,
but its path then appears twice in the import list of the render document, once
from the fixed base imports `moqImports` and once from the tracker — so the
rendered import block lists the path twice, not exactly once. -/
theorem sync_path_rendered_twice :
    mockerImports (mockDoc ("foo") [pkgSyncRef] [] ["I"] (fun l => l)) = ["sync"] ∧
    docImports (mockDoc ("foo") [pkgSyncRef] [] ["I"] (fun l => l)) = ["sync", "sync"] ∧
    (docImports (mockDoc ("foo") [pkgSyncRef] [] ["I"] (fun l => l))).count ("sync") = 2 := by
  decide

/-- Claim C6 counterexample: a writer that accepts only 8 bytes makes `Mock`
return an error (the write error surfaced by template execution) even though
bytes have already been written — the document is streamed, so the claim
that an erroring invocation writes nothing is false for rendering errors. -/
theorem partial_write_on_render_error :
    mockWrite ("foo") [pkgIfaceI] [] ["I"] (fun l => l) 8 =
      (.failed ("write error"), "package ") ∧ ("package " : String) ≠ "" := by
  decide

/-- Claim C7 counterexample: with two parsed packages that both declare an
interface `I`, one `Mock` call collects one descriptor per package for the
single requested name, so the names in `doc.Objects` are not pairwise
distinct. -/
theorem duplicate_objects_with_two_packages :
    objNames (mockBuild ("foo") [pkgIfaceI, pkgIfaceIJ] [] ["I"]) = ["I", "I"] ∧
    ¬ (objNames (mockBuild ("foo") [pkgIfaceI, pkgIfaceIJ] [] ["I"])).Nodup := by
  decide

/-- Claim C8 counterexample: the first `Mock` call accumulates the path
`example.com/ext` in the import set of the Mocker; a second call on the same
Mocker, for an interface that references no foreign package, still emits
that path in the import list of its render document. -/
theorem imports_persist_across_calls :
    mockerImports (mockDoc ("foo") [pkgExt] [] ["J"] (fun l => l)) =
      ["example.com/ext"] ∧
    docImports (mockDoc ("foo") [pkgPlain]
        (mockerImports (mockDoc ("foo") [pkgExt] [] ["J"] (fun l => l)))
        ["K"] (fun l => l)) = ["sync", "example.com/ext"] := by
  decide

/-- Claim C10: the claim says extraction never fails or panics on a valid
interface symbol because `typename[0:2]` is only evaluated for the final
parameter of a variadic signature.  In fact `extractArgs` is also called on
the result tuple with the same variadic signature, so for
`interface { M(xs ...int) T }` (last result rendered as the one-character
string `"T"`) the slice `typename[0:2]` is out of range and extraction
panics, while the parameter tuple alone would extract fine. -/
theorem extract_panics_on_variadic_short_result :
    extractMethodDescr ("foo") sigVariadicShortResult [] = none ∧
    extractArgs ("foo") true [⟨"xs", .slice (.basic ("int"))⟩] ("in%d") [] ≠ none := by
  decide

/-- Claim C2: every generated method implementation opens with a nil check
on the `<Name>Func` field that panics, ahead of the call-log append (which
starts with the lock acquisition given as the start of `rest`) and ahead of
the invocation of the function field. -/
theorem rendered_method_body_starts_with_nil_check (iface : String) (m : Method) :
    ∃ rest : String, renderMethodImpl iface m =
      ("\n// " ++ m.Name ++ " calls " ++ m.Name ++ "Func.\nfunc (mock *" ++
        iface ++ "Mock) " ++ m.Name ++ "(" ++ m.Arglist ++ ") " ++
        m.ReturnArglist ++ " \x7b\n") ++
      ("\tif mock." ++ m.Name ++ "Func == nil \x7b\n\t\tpanic(\x22moq: " ++
        iface ++ "Mock." ++ m.Name ++
        "Func is nil but was just called\x22)\n\t\x7d\n") ++ rest ∧
      ∃ tail, rest = "\tmock.CallsTo.lock" ++ m.Name ++ ".Lock()" ++ tail := by
  refine ⟨"\tmock.CallsTo.lock" ++ m.Name ++ (".Lock()" ++ ("\n\tmock.CallsTo." ++ m.Name ++
    " = append(mock.CallsTo." ++ m.Name ++ ", struct\x7b" ++
    String.join (m.Params.map renderSnapField) ++ "\n\t\x7d\x7b" ++
    String.join (m.Params.map renderSnapInit) ++
    "\n\t\x7d)\n\tmock.CallsTo.lock" ++ m.Name ++ ".Unlock()" ++
    (if m.ReturnArglist = "" then
      "\n\tmock." ++ m.Name ++ "Func(" ++ m.ArgCallList ++ ")"
     else
      "\n\treturn mock." ++ m.Name ++ "Func(" ++ m.ArgCallList ++ ")") ++
    "\n\x7d\n")), ?_, ("\n\tmock.CallsTo." ++ m.Name ++
    " = append(mock.CallsTo." ++ m.Name ++ ", struct\x7b" ++
    String.join (m.Params.map renderSnapField) ++ "\n\t\x7d\x7b" ++
    String.join (m.Params.map renderSnapInit) ++
    "\n\t\x7d)\n\tmock.CallsTo.lock" ++ m.Name ++ ".Unlock()" ++
    (if m.ReturnArglist = "" then
      "\n\tmock." ++ m.Name ++ "Func(" ++ m.ArgCallList ++ ")"
     else
      "\n\treturn mock." ++ m.Name ++ "Func(" ++ m.ArgCallList ++ ")") ++
    "\n\x7d\n"), ?_⟩
  · rw [renderMethodImpl]
    rw [show (" \x7b\n\tif mock." : String) = " \x7b\n" ++ "\tif mock." from rfl]
    rw [show ("Func is nil but was just called\x22)\n\t\x7d\n\tmock.CallsTo.lock" : String) =
      "Func is nil but was just called\x22)\n\t\x7d\n" ++ "\tmock.CallsTo.lock" from rfl]
    rw [show (".Lock()\n\tmock.CallsTo." : String) = ".Lock()" ++ "\n\tmock.CallsTo." from rfl]
    simp only [String.append_assoc]
  · simp only [String.append_assoc]

/-- Evaluation of `fmt.Sprintf "in%d"` on a number. -/
theorem sprintfD_in (n : Nat) : sprintfD ("in%d") n = "in" ++ toString n := by
  have h1 : sprintfD ("in%d") n = String.mk ('i' :: 'n' :: ((toString n).data ++ [])) := rfl
  rw [h1]
  generalize (toString n) = t
  obtain ⟨l⟩ := t
  rw [List.append_nil]
  rfl

/-- Evaluation of `fmt.Sprintf "out%d"` on a number. -/
theorem sprintfD_out (n : Nat) : sprintfD ("out%d") n = "out" ++ toString n := by
  have h1 : sprintfD ("out%d") n = String.mk ('o' :: 'u' :: 't' :: ((toString n).data ++ [])) := rfl
  rw [h1]
  generalize (toString n) = t
  obtain ⟨l⟩ := t
  rw [List.append_nil]
  rfl

/-- Characterisation of the `extractArgs` loop: the result has one
descriptor per tuple entry; an empty declared name at loop index `k` gets
the formatted name at counter `ii + k + 1`, a non-empty name is kept; the
variadic flag holds exactly for a variadic signature at the last index when
the rendered type has the slice prefix. -/
lemma extractArgsAux_spec (target : String) (sigV : Bool) (fmt : String) (listLen : Nat) :
    ∀ (list : List Var) (ii : Nat) (imports : List String) (ps : List Param) (imports2 : List String),
      extractArgsAux target sigV fmt listLen ii list imports = some (ps, imports2) →
      ps.length = list.length ∧
      ∀ k (hk : k < list.length), ∃ pd, ps.get? k = some pd ∧
        pd.Name = (if (list.get ⟨k, hk⟩).name = "" then sprintfD fmt (ii + k + 1)
                   else (list.get ⟨k, hk⟩).name) ∧
        (pd.Variadic = true ↔ sigV = true ∧ ii + k = listLen - 1 ∧ strTake pd.«Type» 2 = "[]") := by
  intro list
  induction list with
  | nil =>
    intro ii imports ps imports2 h
    simp only [extractArgsAux, Option.some.injEq, Prod.mk.injEq] at h
    obtain ⟨h1, h2⟩ := h
    subst h1
    exact ⟨rfl, fun k hk => absurd hk (by simp)⟩
  | cons v rest ih =>
    intro ii imports ps imports2 h
    simp only [extractArgsAux] at h
    split at h
    case isTrue hcond =>
      cases hg : goSlice2 (typesTypeString target v.ty imports).1 with
      | none => rw [hg] at h; exact absurd h (by simp)
      | some pre =>
        rw [hg] at h
        cases hrec : extractArgsAux target sigV fmt listLen (ii + 1) rest (typesTypeString target v.ty imports).2 with
        | none => rw [hrec] at h; exact absurd h (by simp)
        | some pr =>
          obtain ⟨ps', imports'⟩ := pr
          rw [hrec] at h
          simp only [Option.some.injEq, Prod.mk.injEq] at h
          obtain ⟨hps, himp⟩ := h
          subst hps
          obtain ⟨hlen, hall⟩ := ih (ii + 1) _ _ _ hrec
          have hpre : pre = strTake (typesTypeString target v.ty imports).1 2 := by
            simp only [goSlice2] at hg
            split at hg
            · exact (Option.some.injEq _ _ ▸ hg).symm
            · exact absurd hg (by simp)
          refine ⟨by simp [hlen], ?_⟩
          intro k hk
          cases k with
          | zero =>
            refine ⟨_, rfl, ?_, ?_⟩
            · simp only [List.get]
            · simp only [decide_eq_true_eq]
              constructor
              · intro hd
                exact ⟨hcond.1, by simpa using hcond.2, by rw [← hpre]; simpa using hd⟩
              · intro ⟨_, _, hd⟩
                simp only [hpre]
                simpa using hd
          | succ k' =>
            obtain ⟨pd, hpd, hn, hv⟩ := hall k' (by simpa using Nat.lt_of_succ_lt_succ hk)
            refine ⟨pd, by simpa using hpd, ?_, ?_⟩
            · have harith : ii + 1 + k' + 1 = ii + (k' + 1) + 1 := by omega
              rw [harith] at hn
              simpa using hn
            · have harith : ii + 1 + k' = ii + (k' + 1) := by omega
              rw [harith] at hv
              exact hv
    case isFalse hcond =>
      cases hrec : extractArgsAux target sigV fmt listLen (ii + 1) rest (typesTypeString target v.ty imports).2 with
      | none => rw [hrec] at h; exact absurd h (by simp)
      | some pr =>
        obtain ⟨ps', imports'⟩ := pr
        rw [hrec] at h
        simp only [Option.some.injEq, Prod.mk.injEq] at h
        obtain ⟨hps, himp⟩ := h
        subst hps
        obtain ⟨hlen, hall⟩ := ih (ii + 1) _ _ _ hrec
        refine ⟨by simp [hlen], ?_⟩
        intro k hk
        cases k with
        | zero =>
          refine ⟨_, rfl, ?_, ?_⟩
          · simp only [List.get]
          · simp only [Bool.false_eq_true, false_iff]
            intro ⟨h1, h2, _⟩
            exact hcond ⟨h1, by simpa using h2⟩
        | succ k' =>
          obtain ⟨pd, hpd, hn, hv⟩ := hall k' (by simpa using Nat.lt_of_succ_lt_succ hk)
          refine ⟨pd, by simpa using hpd, ?_, ?_⟩
          · have harith : ii + 1 + k' + 1 = ii + (k' + 1) + 1 := by omega
            rw [harith] at hn
            simpa using hn
          · have harith : ii + 1 + k' = ii + (k' + 1) := by omega
            rw [harith] at hv
            exact hv

/-- The `extractArgsAux` characterisation at loop start. -/
lemma extractArgs_spec (target : String) (sigV : Bool) (list : List Var) (fmt : String)
    (imports : List String) (ps : List Param) (imports2 : List String)
    (h : extractArgs target sigV list fmt imports = some (ps, imports2)) :
    ps.length = list.length ∧
    ∀ k (hk : k < list.length), ∃ pd, ps.get? k = some pd ∧
      pd.Name = (if (list.get ⟨k, hk⟩).name = "" then sprintfD fmt (k + 1)
                 else (list.get ⟨k, hk⟩).name) ∧
      (pd.Variadic = true ↔ sigV = true ∧ k = list.length - 1 ∧ strTake pd.«Type» 2 = "[]") := by
  obtain ⟨hlen, hall⟩ := extractArgsAux_spec target sigV fmt list.length list 0 imports ps imports2 h
  refine ⟨hlen, fun k hk => ?_⟩
  obtain ⟨pd, h1, h2, h3⟩ := hall k hk
  exact ⟨pd, h1, by simpa using h2, by simpa using h3⟩

/-- Decomposition of a successful `extractMethodDescr` run into its two
`extractArgs` calls. -/
lemma extractMethodDescr_eq (target : String) (sig : MethodSig) (imports : List String)
    (meth : Method) (imports2 : List String)
    (h : extractMethodDescr target sig imports = some (meth, imports2)) :
    ∃ i1 ps rs, extractArgs target sig.variadic sig.params ("in%d") imports = some (ps, i1) ∧
      extractArgs target sig.variadic sig.results ("out%d") i1 = some (rs, imports2) ∧
      meth = ⟨sig.name, ps, rs⟩ := by
  unfold extractMethodDescr at h
  cases h1 : extractArgs target sig.variadic sig.params ("in%d") imports with
  | none => rw [h1] at h; exact absurd h (by simp)
  | some pr1 =>
    obtain ⟨ps, i1⟩ := pr1
    rw [h1] at h
    dsimp only at h
    cases h2 : extractArgs target sig.variadic sig.results ("out%d") i1 with
    | none => rw [h2] at h; exact absurd h (by simp)
    | some pr2 =>
      obtain ⟨rs, i2⟩ := pr2
      rw [h2] at h
      simp only [Option.some.injEq, Prod.mk.injEq] at h
      obtain ⟨hm, hi⟩ := h
      exact ⟨i1, ps, rs, rfl, by rw [hi] at h2; exact h2, hm.symm⟩

/-- Claim C3: parameters and results are named independently with separate
1-based counters — the k-th parameter with an empty declared name becomes
`in<k>`, the k-th result with an empty declared name becomes `out<k>`, and
non-empty declared names are kept unchanged. -/
theorem extracted_positional_names (target : String) (sig : MethodSig) (imports : List String)
    (meth : Method) (imports2 : List String)
    (h : extractMethodDescr target sig imports = some (meth, imports2)) :
    meth.Params.length = sig.params.length ∧
    meth.Returns.length = sig.results.length ∧
    (∀ k (hk : k < sig.params.length), ∃ pd, meth.Params.get? k = some pd ∧
      pd.Name = (if (sig.params.get ⟨k, hk⟩).name = "" then ("in") ++ toString (k + 1)
                 else (sig.params.get ⟨k, hk⟩).name)) ∧
    (∀ k (hk : k < sig.results.length), ∃ pd, meth.Returns.get? k = some pd ∧
      pd.Name = (if (sig.results.get ⟨k, hk⟩).name = "" then ("out") ++ toString (k + 1)
                 else (sig.results.get ⟨k, hk⟩).name)) := by
  obtain ⟨i1, ps, rs, h1, h2, hm⟩ := extractMethodDescr_eq target sig imports meth imports2 h
  subst hm
  obtain ⟨hl1, ha1⟩ := extractArgs_spec target sig.variadic sig.params ("in%d") imports ps i1 h1
  obtain ⟨hl2, ha2⟩ := extractArgs_spec target sig.variadic sig.results ("out%d") i1 rs imports2 h2
  refine ⟨hl1, hl2, fun k hk => ?_, fun k hk => ?_⟩
  · obtain ⟨pd, hg, hn, _⟩ := ha1 k hk
    rw [sprintfD_in] at hn
    exact ⟨pd, hg, hn⟩
  · obtain ⟨pd, hg, hn, _⟩ := ha2 k hk
    rw [sprintfD_out] at hn
    exact ⟨pd, hg, hn⟩

/-- A method signature with an unnamed first parameter, a named second
parameter and an unnamed result. -/
def wSig : MethodSig := ⟨"F", [⟨"", .basic ("int")⟩, ⟨"b", .basic ("bool")⟩], [⟨"", .basic ("string")⟩], false⟩

/-- The descriptor `extractMethodDescr` produces for `wSig`. -/
def wMeth : Method := ⟨"F", [⟨"in1", "int", false⟩, ⟨"b", "bool", false⟩], [⟨"out1", "string", false⟩]⟩

/-- Witness for C3 at a concrete signature. -/
theorem extracted_positional_names_witness :
    extractMethodDescr ("foo") wSig [] = some (wMeth, []) ∧
    (∃ pd, wMeth.Params.get? 0 = some pd ∧ pd.Name = "in1") ∧
    (∃ pd, wMeth.Params.get? 1 = some pd ∧ pd.Name = "b") ∧
    (∃ pd, wMeth.Returns.get? 0 = some pd ∧ pd.Name = "out1") := by
  have h : extractMethodDescr ("foo") wSig [] = some (wMeth, []) := by decide
  obtain ⟨_, _, hp, hr⟩ := extracted_positional_names ("foo") wSig [] wMeth [] h
  refine ⟨h, ?_, ?_, ?_⟩
  · obtain ⟨pd, h1, h2⟩ := hp 0 (by decide)
    exact ⟨pd, h1, by rw [h2]; decide⟩
  · obtain ⟨pd, h1, h2⟩ := hp 1 (by decide)
    exact ⟨pd, h1, by rw [h2]; decide⟩
  · obtain ⟨pd, h1, h2⟩ := hr 0 (by decide)
    exact ⟨pd, h1, by rw [h2]; decide⟩

/-- Claim C4: an extracted parameter descriptor has `Variadic = true`
exactly when the signature is variadic, the parameter is the last of the
parameter list, and its rendered type expression begins with `"[]"` — so in
particular no non-final parameter is ever marked variadic. -/
theorem params_variadic_flag_iff (target : String) (sig : MethodSig) (imports : List String)
    (meth : Method) (imports2 : List String)
    (h : extractMethodDescr target sig imports = some (meth, imports2))
    (k : Nat) (hk : k < sig.params.length) :
    ∃ pd, meth.Params.get? k = some pd ∧
      (pd.Variadic = true ↔
        sig.variadic = true ∧ k = sig.params.length - 1 ∧ strTake pd.«Type» 2 = "[]") := by
  obtain ⟨i1, ps, rs, h1, _, hm⟩ := extractMethodDescr_eq target sig imports meth imports2 h
  subst hm
  obtain ⟨_, ha1⟩ := extractArgs_spec target sig.variadic sig.params ("in%d") imports ps i1 h1
  obtain ⟨pd, hg, _, hv⟩ := ha1 k hk
  exact ⟨pd, hg, hv⟩

/-- A variadic method signature: `G(a int, xs ...int)`. -/
def wVarSig : MethodSig := ⟨"G", [⟨"a", .basic ("int")⟩, ⟨"xs", .slice (.basic ("int"))⟩], [], true⟩

/-- The descriptor `extractMethodDescr` produces for `wVarSig`. -/
def wVarMeth : Method := ⟨"G", [⟨"a", "int", false⟩, ⟨"xs", "[]int", true⟩], []⟩

/-- Witness for C4 at a concrete variadic signature. -/
theorem params_variadic_flag_iff_witness :
    extractMethodDescr ("foo") wVarSig [] = some (wVarMeth, []) ∧
    (∃ pd, wVarMeth.Params.get? 1 = some pd ∧ pd.Variadic = true) ∧
    (∃ pd, wVarMeth.Params.get? 0 = some pd ∧ pd.Variadic = false) := by
  have h : extractMethodDescr ("foo") wVarSig [] = some (wVarMeth, []) := by decide
  refine ⟨h, ?_, ?_⟩
  · obtain ⟨pd, h1, hiff⟩ := params_variadic_flag_iff ("foo") wVarSig [] wVarMeth [] h 1 (by decide)
    have hpd : pd = ⟨"xs", "[]int", true⟩ :=
      (Option.some.inj (h1.symm.trans (show wVarMeth.Params.get? 1 = some (⟨"xs", "[]int", true⟩ : Param) from rfl)))
    exact ⟨pd, h1, hiff.mpr ⟨rfl, by decide, by rw [hpd]; decide⟩⟩
  · obtain ⟨pd, h1, hiff⟩ := params_variadic_flag_iff ("foo") wVarSig [] wVarMeth [] h 0 (by decide)
    have hpd : pd = ⟨"a", "int", false⟩ :=
      (Option.some.inj (h1.symm.trans (show wVarMeth.Params.get? 0 = some (⟨"a", "int", false⟩ : Param) from rfl)))
    exact ⟨pd, h1, by rw [hpd]⟩

/-- Claim C6 amended: every error detected before template execution begins
(empty name list, type-check failure, interface not found, not an
interface, or a panic-free failure in general surfaced by `mockBuild`)
leaves the writer untouched; once rendering has begun, output is streamed,
so a rendering error can leave a partial prefix written (see the
counterexample). -/
theorem no_bytes_written_before_render (target : String) (pkgs : List GoPkg)
    (imports0 names : List String) (iter : List String → List String) (cap : Nat)
    (e : String) (h : mockBuild target pkgs imports0 names = .failed e) :
    mockWrite target pkgs imports0 names iter cap = (.failed e, "") := by
  unfold mockWrite mockDoc
  rw [h]

/-- Witness for the amended C6 at the empty-name-list error. -/
theorem no_bytes_written_before_render_witness :
    mockBuild ("foo") [] [] [] = .failed ("must specify one interface") ∧
    mockWrite ("foo") [] [] [] (fun l => l) 1000 =
      (.failed ("must specify one interface"), "") :=
  ⟨by decide, no_bytes_written_before_render ("foo") [] [] [] (fun l => l) 1000
    ("must specify one interface") (by decide)⟩

/-- A successful pass of the requested-name loop collects exactly one
descriptor per requested name, in request order. -/
lemma processNames_map (target : String) (scope : List (String × Sym)) :
    ∀ (names imports : List String) (objs : List Obj) (imports2 : List String),
      processNames target scope names imports = .ok (objs, imports2) →
      objs.map (fun o => o.InterfaceName) = names := by
  intro names
  induction names with
  | nil =>
    intro imports objs imports2 h
    simp only [processNames, GoResult.ok.injEq, Prod.mk.injEq] at h
    rw [← h.1]
    simp
  | cons n rest ih =>
    intro imports objs imports2 h
    simp only [processNames] at h
    cases hl : scope.lookup n with
    | none => rw [hl] at h; exact absurd h (by simp)
    | some sym =>
      rw [hl] at h
      cases sym with
      | nonIface t => exact absurd h (by simp)
      | iface sigs =>
        dsimp only at h
        cases he : extractMethods target sigs imports with
        | none => rw [he] at h; exact absurd h (by simp)
        | some pr =>
          obtain ⟨ms, i1⟩ := pr
          rw [he] at h
          dsimp only at h
          cases hr : processNames target scope rest i1 with
          | panicked => rw [hr] at h; exact absurd h (by simp)
          | failed e2 => rw [hr] at h; exact absurd h (by simp)
          | ok pr2 =>
            obtain ⟨objs1, i2⟩ := pr2
            rw [hr] at h
            simp only [GoResult.ok.injEq, Prod.mk.injEq] at h
            rw [← h.1]
            simp [ih _ _ _ hr]

/-- Claim C7 amended: when exactly one package was parsed, a successful
`Mock` call collects exactly one descriptor per requested name, in request
order; hence the descriptor names are pairwise distinct whenever the
requested names are (with several parsed packages the loop duplicates them,
see the counterexample). -/
theorem single_package_object_names (target : String) (p : GoPkg)
    (imports0 names : List String) (objs : List Obj) (imps : List String)
    (h : mockBuild target [p] imports0 names = .ok (objs, imps)) :
    objs.map (fun o => o.InterfaceName) = names ∧
    (names.Nodup → (objs.map (fun o => o.InterfaceName)).Nodup) := by
  unfold mockBuild at h
  split at h
  · exact absurd h (by simp)
  · simp only [processPkgs] at h
    cases hc : p.check with
    | error e => rw [hc] at h; exact absurd h (by simp)
    | ok scope =>
      rw [hc] at h
      dsimp only at h
      cases hn : processNames target scope names imports0 with
      | panicked => rw [hn] at h; exact absurd h (by simp)
      | failed e => rw [hn] at h; exact absurd h (by simp)
      | ok pr =>
        obtain ⟨objs1, i1⟩ := pr
        rw [hn] at h
        simp only [processPkgs, GoResult.ok.injEq, Prod.mk.injEq] at h
        have heq : objs.map (fun o => o.InterfaceName) = names := by
          rw [← h.1]
          simpa using processNames_map target scope names imports0 objs1 i1 hn
        exact ⟨heq, fun hnd => heq ▸ hnd⟩

/-- Witness for the amended C7 on one package and two distinct names. -/
theorem single_package_object_names_witness :
    mockBuild ("foo") [pkgIfaceIJ] [] ["I", "J"] =
      .ok ([⟨"I", []⟩, ⟨"J", []⟩], []) ∧
    ([(⟨"I", []⟩ : Obj), ⟨"J", []⟩].map (fun o => o.InterfaceName)) = ["I", "J"] ∧
    ([(⟨"I", []⟩ : Obj), ⟨"J", []⟩].map (fun o => o.InterfaceName)).Nodup := by
  have h : mockBuild ("foo") [pkgIfaceIJ] [] ["I", "J"] = .ok ([⟨"I", []⟩, ⟨"J", []⟩], []) := by
    decide
  obtain ⟨h1, h2⟩ := single_package_object_names ("foo") pkgIfaceIJ [] ["I", "J"] _ _ h
  exact ⟨h, h1, h2 (by decide)⟩

/-- A string has length zero exactly when it is empty. -/
lemma strLengthZero (s : String) : s.length = 0 ↔ s = "" := by
  obtain ⟨l⟩ := s
  constructor
  · intro h
    have : l = [] := List.length_eq_zero.mp (by simpa [String.length] using h)
    rw [this]
  · intro h
    rw [h]
    rfl

/-- The package-name loop of `New` picks the first name without the
`"_test"` marker: it returns the empty string exactly when every name has
the marker, and otherwise agrees with `List.find?`. -/
lemma choosePkgName_spec (l : List String) (hne : ∀ n ∈ l, n ≠ "") :
    (choosePkgName l = "" ↔ ∀ n ∈ l, goContains n ("_test") = true) ∧
    (choosePkgName l ≠ "" →
      l.find? (fun n => ! goContains n ("_test")) = some (choosePkgName l)) := by
  induction l with
  | nil => exact ⟨by simp [choosePkgName], by simp [choosePkgName]⟩
  | cons n rest ih =>
    obtain ⟨ih1, ih2⟩ := ih (fun x hx => hne x (List.mem_cons_of_mem n hx))
    by_cases hg : goContains n ("_test") = true
    · constructor
      · rw [show choosePkgName (n :: rest) = choosePkgName rest by
          simp [choosePkgName, hg]]
        rw [ih1]
        simp [hg]
      · intro hnz
        rw [show choosePkgName (n :: rest) = choosePkgName rest by
          simp [choosePkgName, hg]] at hnz ⊢
        rw [List.find?_cons_of_neg _ (by simp [hg])]
        exact ih2 hnz
    · have hc : choosePkgName (n :: rest) = n := by
        simp [choosePkgName, hg]
      constructor
      · rw [hc]
        constructor
        · intro h
          exact absurd h (hne n (by simp))
        · intro h
          exact absurd (h n (by simp)) (by simpa using hg)
      · intro _
        rw [hc]
        rw [List.find?_cons_of_pos _ (by simpa using hg)]

/-- Claim C9: with an empty package-name argument and nonempty parsed
package names, `New` fails exactly when every discovered package name
contains the `"_test"` marker (also when none were discovered), and on
success it selects the first parsed package name without the marker. -/
theorem new_default_package_selection (pkgNames : List String)
    (hne : ∀ n ∈ pkgNames, n ≠ "") :
    (newPkgName ("") pkgNames = .error ("failed to determine package name") ↔
      ∀ n ∈ pkgNames, goContains n ("_test") = true) ∧
    (∀ p, newPkgName ("") pkgNames = .ok p →
      pkgNames.find? (fun n => ! goContains n ("_test")) = some p) := by
  obtain ⟨h1, h2⟩ := choosePkgName_spec pkgNames hne
  have hdef : newPkgName ("") pkgNames =
      (if (choosePkgName pkgNames).length = 0 then .error ("failed to determine package name")
       else .ok (choosePkgName pkgNames)) := rfl
  rw [hdef]
  by_cases hz : (choosePkgName pkgNames).length = 0
  · rw [if_pos hz]
    refine ⟨⟨fun _ => h1.mp ((strLengthZero _).mp hz), fun _ => rfl⟩, fun p hp => ?_⟩
    exact absurd hp (by simp)
  · rw [if_neg hz]
    have hnz : choosePkgName pkgNames ≠ "" := fun hc => hz ((strLengthZero _).mpr hc)
    constructor
    · constructor
      · intro hc
        exact absurd hc (by simp)
      · intro hall
        exact absurd (h1.mpr hall) hnz
    · intro p hp
      have : choosePkgName pkgNames = p := by
        simpa using hp
      rw [← this]
      exact h2 hnz

/-- Witness for C9: with names `a_test` and `b`, the selection is `b`. -/
theorem new_default_package_selection_witness :
    (["a_test", "b"] : List String).find? (fun n => ! goContains n ("_test")) = some ("b") :=
  (new_default_package_selection ["a_test", "b"] (by decide)).2 ("b") rfl

/-- The import set only grows: `s2` extends `s` at the end, and inherits
freedom from duplicates. -/
def ImportsExt (s s2 : List String) : Prop :=
  (∃ t, s2 = s ++ t) ∧ (s.Nodup → s2.Nodup)

/-- Reflexivity of the import-set extension relation. -/
lemma ImportsExt.refl {s : List String} : ImportsExt s s :=
  ⟨⟨[], by simp⟩, id⟩

/-- Transitivity of the import-set extension relation. -/
lemma ImportsExt.trans {s1 s2 s3 : List String}
    (h1 : ImportsExt s1 s2) (h2 : ImportsExt s2 s3) : ImportsExt s1 s3 := by
  obtain ⟨⟨t1, e1⟩, n1⟩ := h1
  obtain ⟨⟨t2, e2⟩, n2⟩ := h2
  exact ⟨⟨t1 ++ t2, by rw [e2, e1, List.append_assoc]⟩, fun h => n2 (n1 h)⟩

/-- Membership is preserved along an import-set extension. -/
lemma ImportsExt.mem {s s2 : List String} (h : ImportsExt s s2) {p : String}
    (hp : p ∈ s) : p ∈ s2 := by
  obtain ⟨⟨t, e⟩, _⟩ := h
  rw [e]
  exact List.mem_append_left t hp

/-- Set insertion extends the import set. -/
lemma insertImport_ext (s : List String) (p : String) :
    ImportsExt s (insertImport s p) := by
  unfold insertImport
  split
  · exact ImportsExt.refl
  · rename_i hp
    refine ⟨⟨[p], Eq.refl _⟩, fun hn => ?_⟩
    simp [List.nodup_append, hn, hp]

/-- The inserted path is a member afterwards. -/
lemma insertImport_mem (s : List String) (p : String) : p ∈ insertImport s p := by
  unfold insertImport
  split
  · assumption
  · simp

/-- Type rendering only extends the import set. -/
lemma typesTypeString_ext (target : String) (ty : Ty) :
    ∀ s, ImportsExt s (typesTypeString target ty s).2 := by
  induction ty with
  | basic n => intro s; exact ImportsExt.refl
  | named pn pp tn =>
    intro s
    simp only [typesTypeString, packageQualifier]
    split
    · exact ImportsExt.refl
    · exact insertImport_ext s pp
  | slice e ih => intro s; simpa only [typesTypeString] using ih s
  | ptr e ih => intro s; simpa only [typesTypeString] using ih s

/-- The `extractArgs` loop only extends the import set. -/
lemma extractArgsAux_ext (target : String) (sigV : Bool) (fmt : String) (listLen : Nat) :
    ∀ (list : List Var) (ii : Nat) (s : List String) (ps : List Param) (s2 : List String),
      extractArgsAux target sigV fmt listLen ii list s = some (ps, s2) →
      ImportsExt s s2 := by
  intro list
  induction list with
  | nil =>
    intro ii s ps s2 h
    simp only [extractArgsAux, Option.some.injEq, Prod.mk.injEq] at h
    rw [← h.2]
    exact ImportsExt.refl
  | cons v rest ih =>
    intro ii s ps s2 h
    simp only [extractArgsAux] at h
    have hty := typesTypeString_ext target v.ty s
    split at h
    · cases hg : goSlice2 (typesTypeString target v.ty s).1 with
      | none => rw [hg] at h; exact absurd h (by simp)
      | some pre =>
        rw [hg] at h
        cases hrec : extractArgsAux target sigV fmt listLen (ii + 1) rest (typesTypeString target v.ty s).2 with
        | none => rw [hrec] at h; exact absurd h (by simp)
        | some pr =>
          obtain ⟨ps', s'⟩ := pr
          rw [hrec] at h
          simp only [Option.some.injEq, Prod.mk.injEq] at h
          rw [← h.2]
          exact hty.trans (ih (ii + 1) _ _ _ hrec)
    · cases hrec : extractArgsAux target sigV fmt listLen (ii + 1) rest (typesTypeString target v.ty s).2 with
      | none => rw [hrec] at h; exact absurd h (by simp)
      | some pr =>
        obtain ⟨ps', s'⟩ := pr
        rw [hrec] at h
        simp only [Option.some.injEq, Prod.mk.injEq] at h
        rw [← h.2]
        exact hty.trans (ih (ii + 1) _ _ _ hrec)

/-- Method extraction only extends the import set. -/
lemma extractMethodDescr_ext (target : String) (sig : MethodSig)
    (s : List String) (meth : Method) (s2 : List String)
    (h : extractMethodDescr target sig s = some (meth, s2)) :
    ImportsExt s s2 := by
  unfold extractMethodDescr at h
  cases h1 : extractArgs target sig.variadic sig.params ("in%d") s with
  | none => rw [h1] at h; exact absurd h (by simp)
  | some pr1 =>
    obtain ⟨ps, i1⟩ := pr1
    rw [h1] at h
    dsimp only at h
    cases h2 : extractArgs target sig.variadic sig.results ("out%d") i1 with
    | none => rw [h2] at h; exact absurd h (by simp)
    | some pr2 =>
      obtain ⟨rs, i2⟩ := pr2
      rw [h2] at h
      simp only [Option.some.injEq, Prod.mk.injEq] at h
      rw [← h.2]
      exact (extractArgsAux_ext target sig.variadic ("in%d") sig.params.length sig.params 0 s ps i1 h1).trans
        (extractArgsAux_ext target sig.variadic ("out%d") sig.results.length sig.results 0 i1 rs i2 h2)

/-- The method-set loop only extends the import set. -/
lemma extractMethods_ext (target : String) :
    ∀ (sigs : List MethodSig) (s : List String) (ms : List Method) (s2 : List String),
      extractMethods target sigs s = some (ms, s2) →
      ImportsExt s s2 := by
  intro sigs
  induction sigs with
  | nil =>
    intro s ms s2 h
    simp only [extractMethods, Option.some.injEq, Prod.mk.injEq] at h
    rw [← h.2]
    exact ImportsExt.refl
  | cons sig rest ih =>
    intro s ms s2 h
    simp only [extractMethods] at h
    cases h1 : extractMethodDescr target sig s with
    | none => rw [h1] at h; exact absurd h (by simp)
    | some pr =>
      obtain ⟨m, i1⟩ := pr
      rw [h1] at h
      dsimp only at h
      cases h2 : extractMethods target rest i1 with
      | none => rw [h2] at h; exact absurd h (by simp)
      | some pr2 =>
        obtain ⟨ms', i2⟩ := pr2
        rw [h2] at h
        simp only [Option.some.injEq, Prod.mk.injEq] at h
        rw [← h.2]
        exact (extractMethodDescr_ext target sig s m i1 h1).trans (ih _ _ _ h2)

/-- The requested-name loop only extends the import set. -/
lemma processNames_ext (target : String) (scope : List (String × Sym)) :
    ∀ (names s : List String) (objs : List Obj) (s2 : List String),
      processNames target scope names s = .ok (objs, s2) →
      ImportsExt s s2 := by
  intro names
  induction names with
  | nil =>
    intro s objs s2 h
    simp only [processNames, GoResult.ok.injEq, Prod.mk.injEq] at h
    rw [← h.2]
    exact ImportsExt.refl
  | cons n rest ih =>
    intro s objs s2 h
    simp only [processNames] at h
    cases hl : scope.lookup n with
    | none => rw [hl] at h; exact absurd h (by simp)
    | some sym =>
      rw [hl] at h
      cases sym with
      | nonIface t => exact absurd h (by simp)
      | iface sigs =>
        dsimp only at h
        cases he : extractMethods target sigs s with
        | none => rw [he] at h; exact absurd h (by simp)
        | some pr =>
          obtain ⟨ms, i1⟩ := pr
          rw [he] at h
          dsimp only at h
          cases hr : processNames target scope rest i1 with
          | panicked => rw [hr] at h; exact absurd h (by simp)
          | failed e2 => rw [hr] at h; exact absurd h (by simp)
          | ok pr2 =>
            obtain ⟨objs1, i2⟩ := pr2
            rw [hr] at h
            simp only [GoResult.ok.injEq, Prod.mk.injEq] at h
            rw [← h.2]
            exact (extractMethods_ext target sigs s ms i1 he).trans (ih _ _ _ hr)

/-- The package loop only extends the import set. -/
lemma processPkgs_ext (target : String) (names : List String) :
    ∀ (pkgs : List GoPkg) (s : List String) (objs : List Obj) (s2 : List String),
      processPkgs target names pkgs s = .ok (objs, s2) →
      ImportsExt s s2 := by
  intro pkgs
  induction pkgs with
  | nil =>
    intro s objs s2 h
    simp only [processPkgs, GoResult.ok.injEq, Prod.mk.injEq] at h
    rw [← h.2]
    exact ImportsExt.refl
  | cons pkg rest ih =>
    intro s objs s2 h
    simp only [processPkgs] at h
    cases hc : pkg.check with
    | error e => rw [hc] at h; exact absurd h (by simp)
    | ok scope =>
      rw [hc] at h
      dsimp only at h
      cases hn : processNames target scope names s with
      | panicked => rw [hn] at h; exact absurd h (by simp)
      | failed e => rw [hn] at h; exact absurd h (by simp)
      | ok pr =>
        obtain ⟨objs1, i1⟩ := pr
        rw [hn] at h
        dsimp only at h
        cases hp : processPkgs target names rest i1 with
        | panicked => rw [hp] at h; exact absurd h (by simp)
        | failed e => rw [hp] at h; exact absurd h (by simp)
        | ok pr2 =>
          obtain ⟨objs2, i2⟩ := pr2
          rw [hp] at h
          simp only [GoResult.ok.injEq, Prod.mk.injEq] at h
          rw [← h.2]
          exact (processNames_ext target scope names s objs1 i1 hn).trans (ih _ _ _ hp)

/-- A successful `Mock` call only extends the import set. -/
lemma mockBuild_ext (target : String) (pkgs : List GoPkg)
    (imports0 names : List String) (objs : List Obj) (imps : List String)
    (h : mockBuild target pkgs imports0 names = .ok (objs, imps)) :
    ImportsExt imports0 imps := by
  unfold mockBuild at h
  split at h
  · exact absurd h (by simp)
  · exact processPkgs_ext target names pkgs imports0 objs imps h

/-- Claim C5 amended: the qualifier is empty iff the home package equals the
target package (package names being nonempty); a foreign package renders as
its short name and its path is inserted into the import set; the qualifier
is independent of the accumulated state, hence identical across all
renderings of a request; and a tracked foreign path appears exactly once in
the import list of the render document provided it differs from the fixed
base import `"sync"` (a foreign path equal to `"sync"` is listed twice, see the
counterexample). -/
theorem qualifier_and_import_uniqueness :
    (∀ t pn pp s, pn ≠ "" → ((packageQualifier t pn pp s).1 = "" ↔ t = pn)) ∧
    (∀ t pn pp s, t ≠ pn →
      (packageQualifier t pn pp s).1 = pn ∧ pp ∈ (packageQualifier t pn pp s).2) ∧
    (∀ t pn pp s1 s2, (packageQualifier t pn pp s1).1 = (packageQualifier t pn pp s2).1) ∧
    (∀ target pkgs imports0 names iter d imps p,
      imports0.Nodup → (∀ l : List String, (iter l).Perm l) →
      mockDoc target pkgs imports0 names iter = .ok (d, imps) →
      p ∈ imps → p ≠ "sync" → d.Imports.count p = 1) := by
  refine ⟨?_, ?_, ?_, ?_⟩
  · intro t pn pp s hpn
    unfold packageQualifier
    split
    · rename_i ht; simpa using ht
    · rename_i ht; exact ⟨fun hc => absurd hc hpn, fun hc => absurd hc ht⟩
  · intro t pn pp s ht
    unfold packageQualifier
    rw [if_neg ht]
    exact ⟨Eq.refl _, insertImport_mem s pp⟩
  · intro t pn pp s1 s2
    unfold packageQualifier
    by_cases ht : t = pn
    · rw [if_pos ht, if_pos ht]
    · rw [if_neg ht, if_neg ht]
  · intro target pkgs imports0 names iter d imps p hnd hiter hdoc hmem hsync
    unfold mockDoc at hdoc
    cases hb : mockBuild target pkgs imports0 names with
    | panicked => rw [hb] at hdoc; exact absurd hdoc (by simp)
    | failed e => rw [hb] at hdoc; exact absurd hdoc (by simp)
    | ok pr =>
      obtain ⟨objs, imps1⟩ := pr
      rw [hb] at hdoc
      simp only [GoResult.ok.injEq, Prod.mk.injEq] at hdoc
      obtain ⟨hd, hi⟩ := hdoc
      subst hi
      have himps : imps1.Nodup := (mockBuild_ext target pkgs imports0 names objs imps1 hb).2 hnd
      rw [← hd]
      show (moqImports ++ iter imps1).count p = 1
      rw [List.count_append]
      rw [(hiter imps1).count_eq p]
      rw [List.count_eq_one_of_mem himps hmem]
      have h0 : List.count p moqImports = 0 :=
        List.count_eq_zero.mpr (by simp [moqImports, hsync])
      rw [h0]

/-- Witness for the amended C5: the tracked path `example.com/pa` appears
exactly once in the import list of a concrete run. -/
theorem qualifier_and_import_uniqueness_witness :
    (docImports (mockDoc ("foo") [pkgTwoForeign] [] ["I"] (fun l => l))).count ("example.com/pa") = 1 := by
  have hd : mockDoc ("foo") [pkgTwoForeign] [] ["I"] (fun l => l) =
      .ok (⟨"foo", [⟨"I", [⟨"M", [⟨"a", "pa.T", false⟩, ⟨"b", "pb.U", false⟩], []⟩]⟩],
            ["sync", "example.com/pa", "example.com/pb"]⟩,
           ["example.com/pa", "example.com/pb"]) := by decide
  have h := qualifier_and_import_uniqueness.2.2.2 ("foo") [pkgTwoForeign] [] ["I"]
    (fun l => l) _ _ ("example.com/pa") (by decide) (fun l => List.Perm.refl l) hd
    (by decide) (by decide)
  rw [hd]
  exact h

/-- Claim C8 amended: the import set lives on the Mocker and is never
cleared between calls — a successful call returns an import set that
extends the incoming one, and with any valid enumeration of the map each
incoming path still appears in the import list of the new render document
(the render document itself is fresh per call: its imports are exactly
`moqImports` plus the current enumeration of the accumulated set). -/
theorem mocker_imports_accumulate :
    (∀ target pkgs imports0 names objs imps,
      mockBuild target pkgs imports0 names = .ok (objs, imps) →
      ∃ t, imps = imports0 ++ t) ∧
    (∀ target pkgs imports0 names iter d imps p,
      (∀ l : List String, (iter l).Perm l) →
      mockDoc target pkgs imports0 names iter = .ok (d, imps) →
      p ∈ imports0 → p ∈ d.Imports) := by
  constructor
  · intro target pkgs imports0 names objs imps h
    exact (mockBuild_ext target pkgs imports0 names objs imps h).1
  · intro target pkgs imports0 names iter d imps p hiter hdoc hp
    unfold mockDoc at hdoc
    cases hb : mockBuild target pkgs imports0 names with
    | panicked => rw [hb] at hdoc; exact absurd hdoc (by simp)
    | failed e => rw [hb] at hdoc; exact absurd hdoc (by simp)
    | ok pr =>
      obtain ⟨objs, imps1⟩ := pr
      rw [hb] at hdoc
      simp only [GoResult.ok.injEq, Prod.mk.injEq] at hdoc
      obtain ⟨hd, hi⟩ := hdoc
      rw [← hd]
      have hmem : p ∈ imps1 := (mockBuild_ext target pkgs imports0 names objs imps1 hb).mem hp
      have : p ∈ iter imps1 := ((hiter imps1).mem_iff).mpr hmem
      exact List.mem_append_right moqImports this

/-- Witness for the amended C8: a path already accumulated on the Mocker
appears in the import list of the next call. -/
theorem mocker_imports_accumulate_witness :
    ("example.com/ext") ∈ docImports (mockDoc ("foo") [pkgPlain]
      [("example.com/ext")] ["K"] (fun l => l)) := by
  have hd : mockDoc ("foo") [pkgPlain] [("example.com/ext")] ["K"] (fun l => l) =
      .ok (⟨"foo", [⟨"K", [⟨"N", [⟨"s", "string", false⟩], []⟩]⟩],
            ["sync", "example.com/ext"]⟩, ["example.com/ext"]) := by decide
  have h := mocker_imports_accumulate.2 ("foo") [pkgPlain] [("example.com/ext")] ["K"]
    (fun l => l) _ _ ("example.com/ext") (fun l => List.Perm.refl l) hd (by decide)
  rw [hd]
  exact h

end Moq
